import Mathlib

/-!
# Verification of the WikiReview comment / vote / rating / auth core

Shallow embedding of the business-logic core of the WikiReview Next.js
application: the rating ledger (`src/app/api/ratings/route.ts`), the vote
ledger (`src/app/api/comments/vote/route.ts`), the comment tree store
(`src/app/api/comments/route.ts`) and the credential/session layer
(`src/lib/auth.ts`), backed by the SQLite schema of `src/lib/db.ts`.

Modelling conventions:
* JavaScript numbers are modelled as `ℚ` where fractional values can occur
  (rating inputs) and as `ℕ`/`ℤ` where the code only ever handles integers
  (ids, vote values, timestamps).
* A SQLite table is a `List` of row structures together with a `nextId`
  counter standing for the `AUTOINCREMENT` id supply; `SELECT ... .get`
  is `List.find?`, `.all` is `List.filter`, `INSERT` appends, `UPDATE ...
  WHERE id = ?` maps over the rows, `DELETE ... WHERE id = ?` filters.
  Row order in the list is insertion order, which coincides with
  `createdAt ASC` order for these handlers (rows are only ever appended).
* JavaScript truthiness is modelled explicitly where the handlers rely on
  it: `!x` on a number is `x = 0`, on a string is `x = ""`, on an
  optional value is `none` or the falsy payload.
* `Math.round x` on a finite number is `⌊x + 1/2⌋` (round half toward +∞).
* Each handler returns its new store paired with a response; the error
  paths return the store unchanged, exactly as the route returns before
  touching the database.
-/

/-- JavaScript `Math.round` on a finite number: round half toward `+∞`. -/
def jsRound (x : ℚ) : ℤ := ⌊x + 1/2⌋

/-- JavaScript `s || d` on a string-or-undefined: the empty string and
`undefined` both fall back to the default. -/
def jsStrOr (o : Option String) (d : String) : String :=
  match o with
  | some s => if s = "" then d else s
  | none => d

/-! ## Rating ledger (`src/app/api/ratings/route.ts`)

A row of the `ratings` table (`src/lib/db.ts`): `id INTEGER PRIMARY KEY
AUTOINCREMENT, pageId, pageTitle, rating, author`, with a unique index on
`(pageId, author)`.  `createdAt`/`updatedAt` timestamps carry no
information used by the handlers and are omitted. -/
structure RatingRow where
  id : ℕ
  pageId : ℕ
  pageTitle : String
  rating : ℚ
  author : String
deriving Repr, DecidableEq

/-- The `ratings` table plus the `AUTOINCREMENT` id supply. -/
structure RatingStore where
  rows : List RatingRow
  nextId : ℕ
deriving Repr, DecidableEq

/-- Response of `POST /api/ratings` (and shape of `GET`'s aggregate). -/
inductive RatingResponse where
  | error (status : ℕ)
  | ok (average : ℚ) (count : ℕ) (userRating : ℤ)
deriving Repr, DecidableEq

/-- Row match for the `WHERE pageId = ? AND author = ?` queries. -/
def ratingKeyMatches (pageId : ℕ) (author : String) (r : RatingRow) : Bool :=
  r.pageId == pageId && r.author == author

/-- `SELECT rating FROM ratings WHERE pageId = ?` (as values). -/
def ratingsFor (st : RatingStore) (pageId : ℕ) : List ℚ :=
  (st.rows.filter (fun r => r.pageId == pageId)).map (·.rating)

/-- The aggregate computation shared by `GET` and `POST /api/ratings`:
`count = ratings.length`, `sum = ratings.reduce((acc, r) => acc + r, 0)`,
`average = count > 0 ? sum / count : 0`, reported as
`Math.round(average * 10) / 10`. -/
def reportAverage (l : List ℚ) : ℚ :=
  let count := l.length
  let sum := l.foldl (· + ·) 0
  let average := if count > 0 then sum / (count : ℚ) else 0
  (jsRound (average * 10) : ℚ) / 10

/-- `GET /api/ratings` aggregate `(average, count)` for a page's rating
values. -/
def ratingsSummary (l : List ℚ) : ℚ × ℕ :=
  (reportAverage l, l.length)

/-- `POST /api/ratings` (`submitRating`).  Validation: `!pageId || !rating`
then `rating < 1 || rating > 5`, each a 400 before any mutation.  The
resolved author (logged-in user's name, provided author, or the literal
`"Anonymous"`) is passed in already resolved.  Upsert: `SELECT id FROM
ratings WHERE pageId = ? AND author = ?`; on hit `UPDATE ratings SET
rating = Math.round(rating) WHERE id = ?`, on miss `INSERT` with
`Math.round(rating)` (the `SQLITE_CONSTRAINT_UNIQUE` catch handler only
fires under concurrent interleavings, which the sequential model has
none of).  Afterwards the aggregate is recomputed from all rows of the
page and `userRating = Math.round(rating)` is echoed back. -/
def submitRating (st : RatingStore) (pageId : ℕ) (pageTitle : Option String)
    (rating : ℚ) (author : String) : RatingStore × RatingResponse :=
  if pageId = 0 ∨ rating = 0 then (st, .error 400)
  else if rating < 1 ∨ 5 < rating then (st, .error 400)
  else
    let st' : RatingStore :=
      match st.rows.find? (ratingKeyMatches pageId author) with
      | some existing =>
        { st with rows := st.rows.map (fun r =>
            if r.id == existing.id then { r with rating := (jsRound rating : ℚ) } else r) }
      | none =>
        let newRow : RatingRow :=
          { id := st.nextId, pageId := pageId,
            pageTitle := jsStrOr pageTitle ("Page " ++ toString pageId),
            rating := (jsRound rating : ℚ), author := author }
        { rows := st.rows ++ [newRow], nextId := st.nextId + 1 }
    let pageRatings := ratingsFor st' pageId
    (st', .ok (reportAverage pageRatings) pageRatings.length (jsRound rating))

/-- Store invariant backing the unique index `idx_ratings_pageId_author`
and `id INTEGER PRIMARY KEY AUTOINCREMENT`: pairwise distinct
`(pageId, author)` keys, and every id below the next fresh id. -/
def RatingInv (st : RatingStore) : Prop :=
  st.rows.Pairwise (fun a b => (a.pageId, a.author) ≠ (b.pageId, b.author)) ∧
  ∀ r ∈ st.rows, r.id < st.nextId

instance : DecidablePred RatingInv := fun st => by
  unfold RatingInv
  infer_instance

/-! ## Generic list helpers for the `SELECT`/`UPDATE`/`DELETE` reasoning -/

/-- A miss of `SELECT ... .get` means no row matches. -/
theorem filter_eq_nil_of_find?_none {α : Type _} {p : α → Bool} {l : List α}
    (h : l.find? p = none) : l.filter p = [] :=
  List.filter_eq_nil_iff.mpr (List.find?_eq_none.mp h)

/-- If the matching rows are pairwise exclusive (at most one can match) and
`find?` hits, then the hit is the only matching row. -/
theorem filter_eq_singleton_of_find?_some {α : Type _} {p : α → Bool} {l : List α} {x : α}
    (hfind : l.find? p = some x)
    (hpair : l.Pairwise (fun a b => ¬(p a = true ∧ p b = true))) :
    l.filter p = [x] := by
  obtain ⟨hx, as, bs, rfl, has⟩ := List.find?_eq_some.mp hfind
  have has' : as.filter p = [] :=
    List.filter_eq_nil_iff.mpr (fun a ha => by simpa using has a ha)
  have hbs : bs.filter p = [] := by
    refine List.filter_eq_nil_iff.mpr (fun b hb hpb => ?_)
    have := (List.pairwise_append.mp hpair).2.1
    exact (List.pairwise_cons.mp this).1 b hb ⟨hx, hpb⟩
  simp [List.filter_append, List.filter_cons, has', hbs, hx]

/-- Filtering commutes with an `UPDATE ... WHERE id = ?` style map that does
not change the filtered columns. -/
theorem filter_map_of_pred_invariant {α : Type _} {p : α → Bool} {f : α → α} {l : List α}
    (h : ∀ x, p (f x) = p x) : (l.map f).filter p = (l.filter p).map f := by
  rw [List.filter_map]
  exact congrArg _ (List.filter_congr (fun x _ => h x))

/-! ## C7: the reported rating average -/

/-- Round-half-up on the first decimal digit, following the spec's words
("rounded to one decimal place using standard round-half-up on the first
decimal digit"); used to compare against `reportAverage`. -/
def roundHalfUpTenths (x : ℚ) : ℚ := ((⌊10 * x + 1/2⌋ : ℤ) : ℚ) / 10

/-- The spec's description of the `GET /api/ratings` aggregate: the
arithmetic mean of all current values rounded half-up to one decimal, and
`(0, 0)` when no ratings exist.  Stated from the spec's words, to be
compared with `ratingsSummary`. -/
def specRatingSummary (l : List ℚ) : ℚ × ℕ :=
  if l = [] then (0, 0) else (roundHalfUpTenths (l.sum / l.length), l.length)

/-- **C7** — The reported rating average for a subject equals the
arithmetic mean of all current rating values rounded to one decimal place
by round-half-up on the first decimal digit, and is `0` with count `0`
when no ratings exist; in particular `[4,5,3] ↦ 4.0`, `[5] ↦ 5.0`,
`[] ↦ (0, 0)`. -/
theorem ratingsSummary_eq_specRatingSummary (l : List ℚ) :
    ratingsSummary l = specRatingSummary l ∧
    ratingsSummary [4, 5, 3] = (4, 3) ∧
    ratingsSummary [5] = (5, 1) ∧
    ratingsSummary [] = (0, 0) := by
  refine ⟨?_, by norm_num [ratingsSummary, reportAverage, jsRound],
    by norm_num [ratingsSummary, reportAverage, jsRound],
    by norm_num [ratingsSummary, reportAverage, jsRound]⟩
  unfold ratingsSummary specRatingSummary reportAverage roundHalfUpTenths jsRound
  rcases eq_or_ne l [] with rfl | hl
  · norm_num
  · have hlen : 0 < l.length := List.length_pos.mpr hl
    simp only [hl, if_neg, ite_false, hlen, if_pos, ite_true, ← List.sum_eq_foldl]
    rw [mul_comm]

/-! ## C2 / C10: validation and rounding in `submitRating` -/

/-- **C2 counterexample** — `submitRating` does **not** reject the
non-integer value `4.5`: on an empty store it succeeds (HTTP 200 shape,
not a 400) and persists a row (with the rounded value `5`), contradicting
"fails with ValidationError (HTTP 400) ... nothing is persisted". -/
theorem submitRating_accepts_four_point_five :
    submitRating ⟨[], 1⟩ 1 (some "T") (9/2) "Alice" =
      (⟨[⟨1, 1, "T", 5, "Alice"⟩], 2⟩, .ok 5 1 5) := by
  norm_num [submitRating, ratingKeyMatches, ratingsFor, reportAverage, jsRound, jsStrOr]
  decide

/-- **C2 amended** — `submitRating` fails with HTTP 400 (and persists
nothing) for every value below `1` or above `5`; a non-integer value
inside `[1, 5]` such as `4.5` passes validation and is persisted rounded
(see the counterexample and C10). -/
theorem submitRating_out_of_range_rejected (st : RatingStore) (pageId : ℕ)
    (title : Option String) (v : ℚ) (author : String) (h : v < 1 ∨ 5 < v) :
    submitRating st pageId title v author = (st, .error 400) := by
  unfold submitRating
  by_cases h0 : pageId = 0 ∨ v = 0
  · simp [h0]
  · simp [h0, h]

/-- Witness for `submitRating_out_of_range_rejected` at `v = 6`. -/
theorem submitRating_out_of_range_rejected_witness :
    ((6 : ℚ) < 1 ∨ 5 < (6 : ℚ)) ∧
      submitRating ⟨[], 1⟩ 1 (some "T") 6 "Alice" = (⟨[], 1⟩, .error 400) :=
  ⟨Or.inr (by norm_num),
    submitRating_out_of_range_rejected ⟨[], 1⟩ 1 (some "T") 6 "Alice" (Or.inr (by norm_num))⟩

theorem ratingKeyMatches_iff {pageId : ℕ} {author : String} {r : RatingRow} :
    ratingKeyMatches pageId author r = true ↔ r.pageId = pageId ∧ r.author = author := by
  simp [ratingKeyMatches]

/-- The unique-index invariant specialises to: at most one row can match a
given `(pageId, author)` key. -/
theorem RatingInv.ratingKey_exclusive {st : RatingStore} (hinv : RatingInv st)
    (pageId : ℕ) (author : String) :
    st.rows.Pairwise (fun x y =>
      ¬(ratingKeyMatches pageId author x = true ∧ ratingKeyMatches pageId author y = true)) := by
  refine hinv.1.imp (fun hne hm => hne ?_)
  obtain ⟨hx, hy⟩ := hm
  obtain ⟨hx1, hx2⟩ := ratingKeyMatches_iff.mp hx
  obtain ⟨hy1, hy2⟩ := ratingKeyMatches_iff.mp hy
  simp [hx1, hx2, hy1, hy2]

/-- A pairwise-exclusive match predicate selects at most one row. -/
theorem length_filter_le_one_of_pairwise {α : Type _} {p : α → Bool} {l : List α}
    (hpair : l.Pairwise (fun x y => ¬(p x = true ∧ p y = true))) :
    (l.filter p).length ≤ 1 := by
  induction l with
  | nil => simp
  | cons a l ih =>
    obtain ⟨ha, hl⟩ := List.pairwise_cons.mp hpair
    by_cases hpa : p a = true
    · have : l.filter p = [] :=
        List.filter_eq_nil_iff.mpr (fun b hb hpb => ha b hb ⟨hpa, hpb⟩)
      simp [List.filter_cons, hpa, this]
    · simpa [List.filter_cons, hpa] using ih hl

/-- After a validated `submitRating`, the store's rows for the submitted
`(pageId, author)` key are exactly one row carrying `Math.round(value)`:
the upsert either rewrote the unique existing row in place or appended a
fresh one. -/
theorem submitRating_filter_key (st : RatingStore) (pageId : ℕ)
    (title : Option String) (v : ℚ) (author : String)
    (hinv : RatingInv st) (hpid : pageId ≠ 0) (h1 : 1 ≤ v) (h5 : v ≤ 5) :
    (((submitRating st pageId title v author).1.rows.filter
        (ratingKeyMatches pageId author)).map (·.rating)) = [((jsRound v : ℤ) : ℚ)] := by
  have hv0 : v ≠ 0 := by intro h; rw [h] at h1; norm_num at h1
  have hc1 : ¬(pageId = 0 ∨ v = 0) := by tauto
  have hc2 : ¬(v < 1 ∨ 5 < v) := by push_neg; exact ⟨h1, h5⟩
  unfold submitRating
  rw [if_neg hc1, if_neg hc2]
  cases hfind : st.rows.find? (ratingKeyMatches pageId author) with
  | none =>
    have hnil : st.rows.filter (ratingKeyMatches pageId author) = [] :=
      filter_eq_nil_of_find?_none hfind
    simp only [hfind]
    rw [List.filter_append, hnil]
    simp [ratingKeyMatches]
  | some ex =>
    have hone : st.rows.filter (ratingKeyMatches pageId author) = [ex] :=
      filter_eq_singleton_of_find?_some hfind (hinv.ratingKey_exclusive pageId author)
    simp only [hfind]
    rw [filter_map_of_pred_invariant (fun x => by split <;> rfl), hone]
    simp

/-- A validated `submitRating` preserves the unique-index / fresh-id
invariant of the ratings table (error paths leave the store untouched). -/
theorem submitRating_preserves_inv (st : RatingStore) (pageId : ℕ)
    (title : Option String) (v : ℚ) (author : String)
    (hinv : RatingInv st) :
    RatingInv (submitRating st pageId title v author).1 := by
  unfold submitRating
  by_cases hc1 : pageId = 0 ∨ v = 0
  · simpa [hc1] using hinv
  by_cases hc2 : v < 1 ∨ 5 < v
  · simpa [hc1, hc2] using hinv
  rw [if_neg hc1, if_neg hc2]
  cases hfind : st.rows.find? (ratingKeyMatches pageId author) with
  | none =>
    have hmiss := List.find?_eq_none.mp hfind
    refine ⟨?_, ?_⟩
    · rw [List.pairwise_append]
      refine ⟨hinv.1, by simp, fun a ha b hb => ?_⟩
      simp only [List.mem_singleton] at hb
      subst hb
      intro hkey
      obtain ⟨hk1, hk2⟩ : a.pageId = pageId ∧ a.author = author := by simpa using hkey
      exact hmiss a ha (ratingKeyMatches_iff.mpr ⟨hk1, hk2⟩)
    · intro r hr
      rcases List.mem_append.mp hr with hr | hr
      · exact Nat.lt_succ_of_lt (hinv.2 r hr)
      · simp only [List.mem_singleton] at hr
        subst hr
        exact Nat.lt_succ_self _
  | some ex =>
    refine ⟨?_, ?_⟩
    · rw [List.pairwise_map]
      refine hinv.1.imp (fun hne => ?_)
      split <;> split <;> simpa using hne
    · intro r hr
      obtain ⟨x, hx, hfx⟩ := List.mem_map.mp hr
      have hid : r.id = x.id := by
        subst hfx; split <;> rfl
      rw [hid]
      exact hinv.2 x hx

/-- On validated input, `submitRating` answers `ok` with the recomputed
aggregate of the updated store and `userRating = Math.round(value)`. -/
theorem submitRating_response_shape (st : RatingStore) (pageId : ℕ)
    (title : Option String) (v : ℚ) (author : String)
    (hpid : pageId ≠ 0) (h1 : 1 ≤ v) (h5 : v ≤ 5) :
    submitRating st pageId title v author =
      ((submitRating st pageId title v author).1,
        .ok (reportAverage (ratingsFor (submitRating st pageId title v author).1 pageId))
          (ratingsFor (submitRating st pageId title v author).1 pageId).length
          (jsRound v)) := by
  have hv0 : v ≠ 0 := by intro h; rw [h] at h1; norm_num at h1
  have hc1 : ¬(pageId = 0 ∨ v = 0) := by tauto
  have hc2 : ¬(v < 1 ∨ 5 < v) := by push_neg; exact ⟨h1, h5⟩
  unfold submitRating
  rw [if_neg hc1, if_neg hc2]

/-- Rows carrying an integer value in `[1, 5]`, matching the table's
`CHECK(rating >= 1 AND rating <= 5)` on the `INTEGER` column. -/
def RatingCheck (st : RatingStore) : Prop :=
  ∀ r ∈ st.rows, ∃ n : ℤ, r.rating = (n : ℚ) ∧ 1 ≤ n ∧ n ≤ 5

/-- **C10** — For every `submitRating` call that passes validation
(`1 ≤ value ≤ 5`, truthy `pageId`), the persisted and returned
`userRating` value is `Math.round(value)`, an integer in `[1, 5]`, so the
table's `CHECK` constraint keeps holding. -/
theorem submitRating_persists_rounded (st : RatingStore) (pageId : ℕ)
    (title : Option String) (v : ℚ) (author : String)
    (hinv : RatingInv st) (hpid : pageId ≠ 0) (h1 : 1 ≤ v) (h5 : v ≤ 5) :
    ∃ st' avg,
      submitRating st pageId title v author =
        (st', .ok avg (ratingsFor st' pageId).length (jsRound v)) ∧
      ((st'.rows.filter (ratingKeyMatches pageId author)).map (·.rating)
        = [((jsRound v : ℤ) : ℚ)]) ∧
      (1 ≤ jsRound v ∧ jsRound v ≤ 5) ∧
      (RatingCheck st → RatingCheck st') := by
  have hv0 : v ≠ 0 := by intro h; rw [h] at h1; norm_num at h1
  have hc1 : ¬(pageId = 0 ∨ v = 0) := by tauto
  have hc2 : ¬(v < 1 ∨ 5 < v) := by push_neg; exact ⟨h1, h5⟩
  have hround : 1 ≤ jsRound v ∧ jsRound v ≤ 5 := by
    constructor
    · exact Int.le_floor.mpr (by push_cast; linarith)
    · have : (⌊v + 1/2⌋ : ℤ) < 6 := Int.floor_lt.mpr (by push_cast; linarith)
      unfold jsRound
      omega
  refine ⟨(submitRating st pageId title v author).1,
    reportAverage (ratingsFor (submitRating st pageId title v author).1 pageId),
    submitRating_response_shape st pageId title v author hpid h1 h5,
    submitRating_filter_key st pageId title v author hinv hpid h1 h5, hround, ?_⟩
  intro hchk r hr
  revert hr
  unfold submitRating
  rw [if_neg hc1, if_neg hc2]
  cases hfind : st.rows.find? (ratingKeyMatches pageId author) with
  | none =>
    intro hr
    rcases List.mem_append.mp hr with hr | hr
    · exact hchk r hr
    · simp only [List.mem_singleton] at hr
      subst hr
      exact ⟨jsRound v, rfl, hround⟩
  | some ex =>
    intro hr
    obtain ⟨x, hx, hfx⟩ := List.mem_map.mp hr
    subst hfx
    split
    · exact ⟨jsRound v, rfl, hround⟩
    · exact hchk x hx

/-- On validated input whose key already has a row, `submitRating` takes
the `UPDATE ... WHERE id = ?` path. -/
theorem submitRating_rows_of_hit (st : RatingStore) (pageId : ℕ)
    (title : Option String) (v : ℚ) (author : String) (ex : RatingRow)
    (hpid : pageId ≠ 0) (h1 : 1 ≤ v) (h5 : v ≤ 5)
    (hfind : st.rows.find? (ratingKeyMatches pageId author) = some ex) :
    (submitRating st pageId title v author).1.rows = st.rows.map (fun r =>
      if r.id == ex.id then { r with rating := ((jsRound v : ℤ) : ℚ) } else r) := by
  have hv0 : v ≠ 0 := by intro h; rw [h] at h1; norm_num at h1
  have hc1 : ¬(pageId = 0 ∨ v = 0) := by tauto
  have hc2 : ¬(v < 1 ∨ 5 < v) := by push_neg; exact ⟨h1, h5⟩
  unfold submitRating
  rw [if_neg hc1, if_neg hc2]
  simp only [hfind]

/-- **C6** — The rating store keeps at most one row per
`(pageId, author)` key and `submitRating` preserves this; a second
submission for the same key overwrites the prior value in place (after
submitting `v₁` then `v₂` the key's rows are exactly one row holding
`Math.round(v₂)`), and the count for the page does not increase on the
second submission. -/
theorem submitRating_upsert_unique (st : RatingStore) (pageId : ℕ)
    (title : Option String) (author : String) (v₁ v₂ : ℚ)
    (hinv : RatingInv st) (hpid : pageId ≠ 0)
    (h11 : 1 ≤ v₁) (h15 : v₁ ≤ 5) (h21 : 1 ≤ v₂) (h25 : v₂ ≤ 5) :
    RatingInv (submitRating st pageId title v₁ author).1 ∧
    (∀ pid a, (((submitRating st pageId title v₁ author).1.rows.filter
        (ratingKeyMatches pid a)).length ≤ 1)) ∧
    (((submitRating (submitRating st pageId title v₁ author).1
          pageId title v₂ author).1.rows.filter
        (ratingKeyMatches pageId author)).map (·.rating) = [((jsRound v₂ : ℤ) : ℚ)]) ∧
    (ratingsFor (submitRating (submitRating st pageId title v₁ author).1
        pageId title v₂ author).1 pageId).length
      = (ratingsFor (submitRating st pageId title v₁ author).1 pageId).length := by
  have hkey1 := submitRating_filter_key st pageId title v₁ author hinv hpid h11 h15
  have hinv1 := submitRating_preserves_inv st pageId title v₁ author hinv
  refine ⟨hinv1,
    fun pid a => length_filter_le_one_of_pairwise (hinv1.ratingKey_exclusive pid a),
    submitRating_filter_key _ pageId title v₂ author hinv1 hpid h21 h25, ?_⟩
  obtain ⟨ex, hfind⟩ : ∃ ex, (submitRating st pageId title v₁ author).1.rows.find?
      (ratingKeyMatches pageId author) = some ex := by
    cases hf : (submitRating st pageId title v₁ author).1.rows.find?
        (ratingKeyMatches pageId author) with
    | none =>
      exfalso
      rw [filter_eq_nil_of_find?_none hf] at hkey1
      simp at hkey1
    | some ex => exact ⟨ex, rfl⟩
  unfold ratingsFor
  rw [submitRating_rows_of_hit _ pageId title v₂ author ex hpid h21 h25 hfind,
    filter_map_of_pred_invariant (fun x => by split <;> rfl)]
  simp

/-- Witness for `submitRating_upsert_unique`: empty store, submitting `5`
then `2` for the same page and voter. -/
theorem submitRating_upsert_unique_witness :
    RatingInv ⟨[], 1⟩ ∧ (1 : ℕ) ≠ 0 ∧
    (1 : ℚ) ≤ 5 ∧ (5 : ℚ) ≤ 5 ∧ (1 : ℚ) ≤ 2 ∧ (2 : ℚ) ≤ 5 ∧
    (RatingInv (submitRating ⟨[], 1⟩ 1 (some "T") 5 "Alice").1 ∧
    (∀ pid a, (((submitRating ⟨[], 1⟩ 1 (some "T") 5 "Alice").1.rows.filter
        (ratingKeyMatches pid a)).length ≤ 1)) ∧
    (((submitRating (submitRating ⟨[], 1⟩ 1 (some "T") 5 "Alice").1
          1 (some "T") 2 "Alice").1.rows.filter
        (ratingKeyMatches 1 "Alice")).map (·.rating) = [((jsRound 2 : ℤ) : ℚ)]) ∧
    (ratingsFor (submitRating (submitRating ⟨[], 1⟩ 1 (some "T") 5 "Alice").1
        1 (some "T") 2 "Alice").1 1).length
      = (ratingsFor (submitRating ⟨[], 1⟩ 1 (some "T") 5 "Alice").1 1).length) :=
  ⟨⟨List.Pairwise.nil, by simp⟩, one_ne_zero, by norm_num, by norm_num, by norm_num, by norm_num,
    submitRating_upsert_unique ⟨[], 1⟩ 1 (some "T") "Alice" 5 2
      ⟨List.Pairwise.nil, by simp⟩ one_ne_zero
      (by norm_num) (by norm_num) (by norm_num) (by norm_num)⟩

/-- Witness for `submitRating_persists_rounded`: empty store, value `4.4`,
persisted as `4`. -/
theorem submitRating_persists_rounded_witness :
    RatingInv ⟨[], 1⟩ ∧ (1 : ℕ) ≠ 0 ∧ (1 : ℚ) ≤ 22/5 ∧ (22/5 : ℚ) ≤ 5 ∧
    (∃ st' avg,
      submitRating ⟨[], 1⟩ 1 (some "T") (22/5) "Alice" =
        (st', .ok avg (ratingsFor st' 1).length (jsRound (22/5))) ∧
      ((st'.rows.filter (ratingKeyMatches 1 "Alice")).map (·.rating)
        = [((jsRound (22/5) : ℤ) : ℚ)]) ∧
      (1 ≤ jsRound (22/5) ∧ jsRound (22/5) ≤ 5) ∧
      (RatingCheck ⟨[], 1⟩ → RatingCheck st')) :=
  ⟨⟨List.Pairwise.nil, by simp⟩, one_ne_zero, by norm_num, by norm_num,
    submitRating_persists_rounded ⟨[], 1⟩ 1 (some "T") (22/5) "Alice"
      ⟨List.Pairwise.nil, by simp⟩ one_ne_zero (by norm_num) (by norm_num)⟩

/-- The first match of a linear scan is the head of the filtered list. -/
theorem find?_eq_head?_filter {α : Type _} (l : List α) (p : α → Bool) :
    l.find? p = (l.filter p).head? := by
  induction l with
  | nil => rfl
  | cons a l ih =>
    rw [List.find?_cons, List.filter_cons]
    cases h : p a
    · simpa using ih
    · simp

/-! ## Vote ledger (`src/app/api/comments/vote/route.ts`)

A row of the `comment_votes` table (`src/lib/db.ts`): `id INTEGER PRIMARY
KEY AUTOINCREMENT, commentId, author, vote CHECK(vote IN (1,-1)),
UNIQUE(commentId, author)`. -/
structure VoteRow where
  id : ℕ
  commentId : ℕ
  author : String
  vote : ℤ
deriving Repr, DecidableEq

/-- The `comment_votes` table plus the `AUTOINCREMENT` id supply. -/
structure VoteStore where
  rows : List VoteRow
  nextId : ℕ
deriving Repr, DecidableEq

/-- Response of `POST /api/comments/vote`. -/
inductive VoteResponse where
  | error (status : ℕ)
  | ok (upvotes downvotes : ℕ) (userVote : Option ℤ)
deriving Repr, DecidableEq

/-- Row match for `WHERE commentId = ? AND author = ?`. -/
def voteKeyMatches (commentId : ℕ) (author : String) (r : VoteRow) : Bool :=
  r.commentId == commentId && r.author == author

/-- JavaScript `x || null` on a number-or-undefined: `0` and `undefined`
collapse to `null` (models `userVote?.vote || null`). -/
def jsOrNull (o : Option ℤ) : Option ℤ :=
  match o with
  | some v => if v = 0 then none else some v
  | none => none

/-- `POST /api/comments/vote`.  In source order: `!commentId || vote ===
undefined` then `vote !== 1 && vote !== -1` (each 400), an unauthenticated
caller (401, `author` is the resolved `realname || username` of the
session user), a missing comment (404); then the toggle on the existing
`(commentId, author)` row: same value deletes the row, different value
updates it in place, no row inserts one; finally the up/down counts are
recomputed from all rows of the comment and the caller's current vote is
re-read and returned as `userVote?.vote || null`.  `comments` is the set
of existing `comments.id` keys consulted by `SELECT id FROM comments
WHERE id = ?`.  The toggle block of the route is factored out as
`applyVoteToggle`. -/
def applyVoteToggle (st : VoteStore) (commentId : ℕ) (a : String) (vote : ℤ) : VoteStore :=
  match st.rows.find? (voteKeyMatches commentId a) with
  | some existing =>
    if existing.vote = vote then
      { st with rows := st.rows.filter (fun r => !(r.id == existing.id)) }
    else
      { st with rows := st.rows.map (fun r =>
          if r.id == existing.id then { r with vote := vote } else r) }
  | none =>
    let newRow : VoteRow :=
      { id := st.nextId, commentId := commentId, author := a, vote := vote }
    { rows := st.rows ++ [newRow], nextId := st.nextId + 1 }

def castVote (comments : List ℕ) (st : VoteStore) (commentId : ℕ)
    (author : Option String) (vote : ℤ) : VoteStore × VoteResponse :=
  if commentId = 0 then (st, .error 400)
  else if vote ≠ 1 ∧ vote ≠ -1 then (st, .error 400)
  else
    match author with
    | none => (st, .error 401)
    | some a =>
      if commentId ∈ comments then
        let st' : VoteStore := applyVoteToggle st commentId a vote
        let upvotes :=
          (st'.rows.filter (fun r => r.commentId == commentId && r.vote == 1)).length
        let downvotes :=
          (st'.rows.filter (fun r => r.commentId == commentId && r.vote == -1)).length
        let userVote := (st'.rows.find? (voteKeyMatches commentId a)).map (·.vote)
        (st', .ok upvotes downvotes (jsOrNull userVote))
      else (st, .error 404)

/-- Store invariant backing `UNIQUE(commentId, author)` and the
`AUTOINCREMENT` id: pairwise distinct keys and every id below the next
fresh id. -/
def VoteInv (st : VoteStore) : Prop :=
  st.rows.Pairwise (fun a b => (a.commentId, a.author) ≠ (b.commentId, b.author)) ∧
  ∀ r ∈ st.rows, r.id < st.nextId

instance : DecidablePred VoteInv := fun st => by
  unfold VoteInv
  infer_instance

theorem voteKeyMatches_iff {commentId : ℕ} {author : String} {r : VoteRow} :
    voteKeyMatches commentId author r = true ↔ r.commentId = commentId ∧ r.author = author := by
  simp [voteKeyMatches]

/-- The uniqueness invariant specialises to: at most one row can match a
given `(commentId, author)` key. -/
theorem VoteInv.voteKey_exclusive {st : VoteStore} (hinv : VoteInv st)
    (commentId : ℕ) (author : String) :
    st.rows.Pairwise (fun x y =>
      ¬(voteKeyMatches commentId author x = true ∧ voteKeyMatches commentId author y = true)) := by
  refine hinv.1.imp (fun hne hm => hne ?_)
  obtain ⟨hx, hy⟩ := hm
  obtain ⟨hx1, hx2⟩ := voteKeyMatches_iff.mp hx
  obtain ⟨hy1, hy2⟩ := voteKeyMatches_iff.mp hy
  simp [hx1, hx2, hy1, hy2]

/-- Toggle, no prior vote: the row is inserted. -/
theorem applyVoteToggle_of_miss (st : VoteStore) (commentId : ℕ) (a : String) (w : ℤ)
    (hfind : st.rows.find? (voteKeyMatches commentId a) = none) :
    applyVoteToggle st commentId a w =
      ⟨st.rows ++ [⟨st.nextId, commentId, a, w⟩], st.nextId + 1⟩ := by
  unfold applyVoteToggle
  rw [hfind]

/-- Toggle, prior vote with the same value: the row is deleted. -/
theorem applyVoteToggle_of_hit_same (st : VoteStore) (commentId : ℕ) (a : String) (w : ℤ)
    (r : VoteRow) (hfind : st.rows.find? (voteKeyMatches commentId a) = some r)
    (hsame : r.vote = w) :
    applyVoteToggle st commentId a w =
      { st with rows := st.rows.filter (fun x => !(x.id == r.id)) } := by
  unfold applyVoteToggle
  rw [hfind]
  simp [hsame]

/-- Toggle, prior vote with the opposite value: the row is updated in
place. -/
theorem applyVoteToggle_of_hit_opp (st : VoteStore) (commentId : ℕ) (a : String) (w : ℤ)
    (r : VoteRow) (hfind : st.rows.find? (voteKeyMatches commentId a) = some r)
    (hopp : r.vote ≠ w) :
    applyVoteToggle st commentId a w =
      { st with rows := st.rows.map (fun x =>
          if x.id == r.id then { x with vote := w } else x) } := by
  unfold applyVoteToggle
  rw [hfind]
  simp [hopp]

/-- On validated, authenticated input for an existing comment, `castVote`
mutates via the toggle and reports the recomputed counts and the caller's
re-read vote. -/
theorem castVote_valid_eq (comments : List ℕ) (st : VoteStore) (commentId : ℕ)
    (a : String) (w : ℤ)
    (hc0 : commentId ≠ 0) (hw : w = 1 ∨ w = -1) (hc : commentId ∈ comments) :
    castVote comments st commentId (some a) w =
      (applyVoteToggle st commentId a w,
        .ok ((applyVoteToggle st commentId a w).rows.filter
              (fun r => r.commentId == commentId && r.vote == 1)).length
          ((applyVoteToggle st commentId a w).rows.filter
              (fun r => r.commentId == commentId && r.vote == -1)).length
          (jsOrNull (((applyVoteToggle st commentId a w).rows.find?
              (voteKeyMatches commentId a)).map (·.vote)))) := by
  have hw2 : ¬(w ≠ 1 ∧ w ≠ -1) := by
    rcases hw with h | h <;> simp [h]
  unfold castVote
  rw [if_neg hc0, if_neg hw2]
  simp [hc]

/-- After inserting a first vote, the key's rows are exactly the new row. -/
theorem applyVoteToggle_filterKey_of_miss (st : VoteStore) (commentId : ℕ)
    (a : String) (w : ℤ)
    (hfind : st.rows.find? (voteKeyMatches commentId a) = none) :
    (applyVoteToggle st commentId a w).rows.filter (voteKeyMatches commentId a)
      = [⟨st.nextId, commentId, a, w⟩] := by
  rw [applyVoteToggle_of_miss st commentId a w hfind]
  rw [List.filter_append, filter_eq_nil_of_find?_none hfind]
  simp [voteKeyMatches]

/-- After un-voting (same value cast again), no row for the key remains. -/
theorem applyVoteToggle_filterKey_of_hit_same (st : VoteStore) (commentId : ℕ)
    (a : String) (w : ℤ) (r : VoteRow) (hinv : VoteInv st)
    (hfind : st.rows.find? (voteKeyMatches commentId a) = some r)
    (hsame : r.vote = w) :
    (applyVoteToggle st commentId a w).rows.filter (voteKeyMatches commentId a) = [] := by
  have hone : st.rows.filter (voteKeyMatches commentId a) = [r] :=
    filter_eq_singleton_of_find?_some hfind (hinv.voteKey_exclusive commentId a)
  rw [applyVoteToggle_of_hit_same st commentId a w r hfind hsame]
  show (st.rows.filter (fun x => !(x.id == r.id))).filter (voteKeyMatches commentId a) = []
  rw [List.filter_filter,
    List.filter_congr (fun x _ => Bool.and_comm (voteKeyMatches commentId a x) (!(x.id == r.id))),
    ← List.filter_filter, hone]
  simp

/-- After switching a vote, the key's rows are exactly the rewritten row. -/
theorem applyVoteToggle_filterKey_of_hit_opp (st : VoteStore) (commentId : ℕ)
    (a : String) (w : ℤ) (r : VoteRow) (hinv : VoteInv st)
    (hfind : st.rows.find? (voteKeyMatches commentId a) = some r)
    (hopp : r.vote ≠ w) :
    (applyVoteToggle st commentId a w).rows.filter (voteKeyMatches commentId a)
      = [{ r with vote := w }] := by
  have hone : st.rows.filter (voteKeyMatches commentId a) = [r] :=
    filter_eq_singleton_of_find?_some hfind (hinv.voteKey_exclusive commentId a)
  rw [applyVoteToggle_of_hit_opp st commentId a w r hfind hopp]
  show (st.rows.map _).filter (voteKeyMatches commentId a) = _
  rw [filter_map_of_pred_invariant (fun x => by split <;> rfl), hone]
  simp

/-- The toggle preserves the uniqueness / fresh-id invariant of the
`comment_votes` table. -/
theorem applyVoteToggle_preserves_inv (st : VoteStore) (commentId : ℕ)
    (a : String) (w : ℤ) (hinv : VoteInv st) :
    VoteInv (applyVoteToggle st commentId a w) := by
  cases hfind : st.rows.find? (voteKeyMatches commentId a) with
  | none =>
    rw [applyVoteToggle_of_miss st commentId a w hfind]
    have hmiss := List.find?_eq_none.mp hfind
    refine ⟨?_, ?_⟩
    · rw [List.pairwise_append]
      refine ⟨hinv.1, by simp, fun x hx b hb => ?_⟩
      simp only [List.mem_singleton] at hb
      subst hb
      intro hkey
      obtain ⟨hk1, hk2⟩ : x.commentId = commentId ∧ x.author = a := by simpa using hkey
      exact hmiss x hx (voteKeyMatches_iff.mpr ⟨hk1, hk2⟩)
    · intro x hx
      rcases List.mem_append.mp hx with hx | hx
      · exact Nat.lt_succ_of_lt (hinv.2 x hx)
      · simp only [List.mem_singleton] at hx
        subst hx
        exact Nat.lt_succ_self _
  | some r =>
    by_cases hsame : r.vote = w
    · rw [applyVoteToggle_of_hit_same st commentId a w r hfind hsame]
      exact ⟨hinv.1.sublist (List.filter_sublist st.rows),
        fun x hx => hinv.2 x (List.mem_of_mem_filter hx)⟩
    · rw [applyVoteToggle_of_hit_opp st commentId a w r hfind hsame]
      refine ⟨?_, ?_⟩
      · rw [List.pairwise_map]
        refine hinv.1.imp (fun hne => ?_)
        split <;> split <;> simpa using hne
      · intro x hx
        obtain ⟨y, hy, hfy⟩ := List.mem_map.mp hx
        have hid : x.id = y.id := by
          subst hfy; split <;> rfl
        rw [hid]
        exact hinv.2 y hy

/-- **C1** — `castVote` toggle semantics for an existing comment and an
authenticated voter casting `w ∈ {+1, -1}`: no prior vote for the
`(comment, voter)` key inserts a row with value `w` and returns
`userVote = w`; a prior vote with the same value deletes that row and
returns `userVote = null`; a prior vote with the opposite value updates
it in place to `w`.  Consequently, starting from no vote for the key,
casting `w` twice leaves zero net vote from that identity, and a third
cast re-inserts it. -/
theorem castVote_toggle_semantics (comments : List ℕ) (st : VoteStore)
    (commentId : ℕ) (a : String) (w : ℤ)
    (hinv : VoteInv st) (hc0 : commentId ≠ 0) (hc : commentId ∈ comments)
    (hw : w = 1 ∨ w = -1) :
    (st.rows.find? (voteKeyMatches commentId a) = none →
      (castVote comments st commentId (some a) w).1.rows
          = st.rows ++ [⟨st.nextId, commentId, a, w⟩] ∧
      ∃ up dn, (castVote comments st commentId (some a) w).2 = .ok up dn (some w)) ∧
    (∀ r, st.rows.find? (voteKeyMatches commentId a) = some r → r.vote = w →
      (castVote comments st commentId (some a) w).1.rows
          = st.rows.filter (fun x => !(x.id == r.id)) ∧
      ∃ up dn, (castVote comments st commentId (some a) w).2 = .ok up dn none) ∧
    (∀ r, st.rows.find? (voteKeyMatches commentId a) = some r → r.vote ≠ w →
      (castVote comments st commentId (some a) w).1.rows
          = st.rows.map (fun x => if x.id == r.id then { x with vote := w } else x) ∧
      ∃ up dn, (castVote comments st commentId (some a) w).2 = .ok up dn (some w)) ∧
    (st.rows.filter (voteKeyMatches commentId a) = [] →
      (((castVote comments st commentId (some a) w).1.rows.filter
          (voteKeyMatches commentId a)).map (·.vote) = [w]) ∧
      ((castVote comments (castVote comments st commentId (some a) w).1
          commentId (some a) w).1.rows.filter (voteKeyMatches commentId a) = []) ∧
      (((castVote comments (castVote comments (castVote comments st commentId
          (some a) w).1 commentId (some a) w).1 commentId (some a) w).1.rows.filter
          (voteKeyMatches commentId a)).map (·.vote) = [w])) := by
  have hw0 : w ≠ 0 := by rcases hw with h | h <;> simp [h]
  have hmain := castVote_valid_eq comments st commentId a w hc0 hw hc
  have hst1 : (castVote comments st commentId (some a) w).1
      = applyVoteToggle st commentId a w := by rw [hmain]
  refine ⟨?_, ?_, ?_, ?_⟩
  · intro hfind
    refine ⟨by rw [hst1, applyVoteToggle_of_miss st commentId a w hfind],
      ⟨((applyVoteToggle st commentId a w).rows.filter
        (fun r => r.commentId == commentId && r.vote == 1)).length,
        ((applyVoteToggle st commentId a w).rows.filter
        (fun r => r.commentId == commentId && r.vote == -1)).length, ?_⟩⟩
    rw [hmain]
    refine congrArg (VoteResponse.ok _ _) ?_
    rw [find?_eq_head?_filter, applyVoteToggle_filterKey_of_miss st commentId a w hfind]
    simp [jsOrNull, hw0]
  · intro r hfind hsame
    refine ⟨by rw [hst1, applyVoteToggle_of_hit_same st commentId a w r hfind hsame],
      ⟨((applyVoteToggle st commentId a w).rows.filter
        (fun r => r.commentId == commentId && r.vote == 1)).length,
        ((applyVoteToggle st commentId a w).rows.filter
        (fun r => r.commentId == commentId && r.vote == -1)).length, ?_⟩⟩
    rw [hmain]
    refine congrArg (VoteResponse.ok _ _) ?_
    rw [find?_eq_head?_filter,
      applyVoteToggle_filterKey_of_hit_same st commentId a w r hinv hfind hsame]
    simp [jsOrNull]
  · intro r hfind hopp
    refine ⟨by rw [hst1, applyVoteToggle_of_hit_opp st commentId a w r hfind hopp],
      ⟨((applyVoteToggle st commentId a w).rows.filter
        (fun r => r.commentId == commentId && r.vote == 1)).length,
        ((applyVoteToggle st commentId a w).rows.filter
        (fun r => r.commentId == commentId && r.vote == -1)).length, ?_⟩⟩
    rw [hmain]
    refine congrArg (VoteResponse.ok _ _) ?_
    rw [find?_eq_head?_filter,
      applyVoteToggle_filterKey_of_hit_opp st commentId a w r hinv hfind hopp]
    simp [jsOrNull, hw0]
  · intro hnil
    have hfind1 : st.rows.find? (voteKeyMatches commentId a) = none := by
      rw [find?_eq_head?_filter, hnil]; rfl
    have hfk1 : (castVote comments st commentId (some a) w).1.rows.filter
        (voteKeyMatches commentId a) = [⟨st.nextId, commentId, a, w⟩] := by
      rw [hst1]
      exact applyVoteToggle_filterKey_of_miss st commentId a w hfind1
    have hinv1 : VoteInv (castVote comments st commentId (some a) w).1 := by
      rw [hst1]
      exact applyVoteToggle_preserves_inv st commentId a w hinv
    have hfind2 : (castVote comments st commentId (some a) w).1.rows.find?
        (voteKeyMatches commentId a) = some ⟨st.nextId, commentId, a, w⟩ := by
      rw [find?_eq_head?_filter, hfk1]; rfl
    have hmain2 := castVote_valid_eq comments (castVote comments st commentId (some a) w).1
      commentId a w hc0 hw hc
    have hst2 : (castVote comments (castVote comments st commentId (some a) w).1
        commentId (some a) w).1
        = applyVoteToggle (castVote comments st commentId (some a) w).1 commentId a w := by
      rw [hmain2]
    have hfk2 : (castVote comments (castVote comments st commentId (some a) w).1
        commentId (some a) w).1.rows.filter (voteKeyMatches commentId a) = [] := by
      rw [hst2]
      exact applyVoteToggle_filterKey_of_hit_same _ commentId a w _ hinv1 hfind2 rfl
    have hinv2 : VoteInv (castVote comments (castVote comments st commentId (some a) w).1
        commentId (some a) w).1 := by
      rw [hst2]
      exact applyVoteToggle_preserves_inv _ commentId a w hinv1
    have hfind3 : (castVote comments (castVote comments st commentId (some a) w).1
        commentId (some a) w).1.rows.find? (voteKeyMatches commentId a) = none := by
      rw [find?_eq_head?_filter, hfk2]; rfl
    have hmain3 := castVote_valid_eq comments (castVote comments (castVote comments st
      commentId (some a) w).1 commentId (some a) w).1 commentId a w hc0 hw hc
    have hfk3 : (castVote comments (castVote comments (castVote comments st commentId
        (some a) w).1 commentId (some a) w).1 commentId (some a) w).1.rows.filter
        (voteKeyMatches commentId a)
        = [⟨(castVote comments (castVote comments st commentId (some a) w).1
            commentId (some a) w).1.nextId, commentId, a, w⟩] := by
      rw [show (castVote comments (castVote comments (castVote comments st commentId
          (some a) w).1 commentId (some a) w).1 commentId (some a) w).1
          = applyVoteToggle (castVote comments (castVote comments st commentId (some a) w).1
            commentId (some a) w).1 commentId a w from by rw [hmain3]]
      exact applyVoteToggle_filterKey_of_miss _ commentId a w hfind3
    refine ⟨by rw [hfk1]; rfl, hfk2, by rw [hfk3]; rfl⟩

/-- Witness for `castVote_toggle_semantics`: one comment (id `1`), voter
`"Alice"`, empty vote store, casting `+1`. -/
theorem castVote_toggle_semantics_witness :
    VoteInv ⟨[], 1⟩ ∧ (1 : ℕ) ≠ 0 ∧ 1 ∈ [1] ∧ ((1 : ℤ) = 1 ∨ (1 : ℤ) = -1) ∧
    ((VoteStore.mk [] 1).rows.filter (voteKeyMatches 1 "Alice") = [] →
      (((castVote [1] ⟨[], 1⟩ 1 (some "Alice") 1).1.rows.filter
          (voteKeyMatches 1 "Alice")).map (·.vote) = [1]) ∧
      ((castVote [1] (castVote [1] ⟨[], 1⟩ 1 (some "Alice") 1).1
          1 (some "Alice") 1).1.rows.filter (voteKeyMatches 1 "Alice") = []) ∧
      (((castVote [1] (castVote [1] (castVote [1] ⟨[], 1⟩ 1 (some "Alice") 1).1
          1 (some "Alice") 1).1 1 (some "Alice") 1).1.rows.filter
          (voteKeyMatches 1 "Alice")).map (·.vote) = [1])) :=
  ⟨⟨List.Pairwise.nil, by simp⟩, one_ne_zero, by simp, Or.inl rfl,
    (castVote_toggle_semantics [1] ⟨[], 1⟩ 1 "Alice" 1
      ⟨List.Pairwise.nil, by simp⟩ one_ne_zero (by simp) (Or.inl rfl)).2.2.2⟩

/-! ## Comment tree store (`src/app/api/comments/route.ts`)

A row of the `comments` table (`src/lib/db.ts`): `id INTEGER PRIMARY KEY
AUTOINCREMENT, pageId, pageTitle, text, author, parentCommentId INTEGER`
(nullable).  Timestamps are omitted; list order is insertion order, which
is the `ORDER BY createdAt ASC` order used by the `GET` handler. -/
structure CommentRow where
  id : ℕ
  pageId : ℕ
  pageTitle : String
  text : String
  author : String
  parentCommentId : Option ℕ
deriving Repr, DecidableEq

/-- The `comments` table plus the `AUTOINCREMENT` id supply. -/
structure CommentStore where
  rows : List CommentRow
  nextId : ℕ
deriving Repr, DecidableEq

/-- Response of `POST /api/comments`: an error status or the 201 payload
with the freshly inserted row. -/
inductive AddCommentResponse where
  | error (status : ℕ)
  | created (c : CommentRow)
deriving Repr, DecidableEq

/-- JavaScript trim of a string (drop leading and trailing whitespace),
computed on the character list because the handlers must be executable on
concrete inputs. -/
def jsTrim (s : String) : String :=
  ⟨((s.data.dropWhile Char.isWhitespace).reverse.dropWhile Char.isWhitespace).reverse⟩

/-- Truthiness of the `parentCommentId` field: `null`/absent and `0` are
falsy (`if (comment.parentCommentId)` and `parentCommentId || null`). -/
def truthyParent (o : Option ℕ) : Bool :=
  match o with
  | some q => q != 0
  | none => false

/-- The `INSERT INTO comments ...` tail of `POST /api/comments`: the row is
stored with `pageTitle || Page ${pageId}`, `text.trim()`,
`author || 'Anonymous'` and `parentCommentId || null` (normalised to
`none` when falsy), and echoed back with a 201. -/
def insertComment (st : CommentStore) (pageId : ℕ) (pageTitle : Option String)
    (text : String) (author : Option String) (parentCommentId : Option ℕ) :
    CommentStore × AddCommentResponse :=
  let newRow : CommentRow :=
    { id := st.nextId, pageId := pageId,
      pageTitle := jsStrOr pageTitle ("Page " ++ toString pageId),
      text := jsTrim text, author := jsStrOr author "Anonymous",
      parentCommentId := if truthyParent parentCommentId then parentCommentId else none }
  ({ rows := st.rows ++ [newRow], nextId := st.nextId + 1 }, .created newRow)

/-- `POST /api/comments` (`addComment`).  Validation: `!pageId || !text`
is a 400; a truthy `parentCommentId` must resolve (`SELECT id, pageId
FROM comments WHERE id = ?`) else 404, and must belong to the same page
else 400; only then is the row inserted. -/
def addComment (st : CommentStore) (pageId : ℕ) (pageTitle : Option String)
    (text : String) (author : Option String) (parentCommentId : Option ℕ) :
    CommentStore × AddCommentResponse :=
  if pageId = 0 ∨ text = "" then (st, .error 400)
  else
    if truthyParent parentCommentId then
      match st.rows.find? (fun c => c.id == parentCommentId.getD 0) with
      | none => (st, .error 404)
      | some parent =>
        if parent.pageId ≠ pageId then (st, .error 400)
        else insertComment st pageId pageTitle text author parentCommentId
    else insertComment st pageId pageTitle text author parentCommentId

/-- `GET /api/comments` grouping: `topLevelComments = allComments.filter(c
=> !c.parentCommentId)`. -/
def topLevelComments (rows : List CommentRow) : List CommentRow :=
  rows.filter (fun c => !(truthyParent c.parentCommentId))

/-- `GET /api/comments` grouping: `repliesMap.get(pid) || []` — the rows
pushed under key `pid`, in row order (`forEach` pushes in list order, only
for truthy `parentCommentId`). -/
def repliesFor (rows : List CommentRow) (pid : ℕ) : List CommentRow :=
  rows.filter (fun c => truthyParent c.parentCommentId && c.parentCommentId.getD 0 == pid)

/-- The nested comment payload built by `buildCommentTree`: a row plus its
recursively attached replies. -/
inductive CommentTree where
  | mk (comment : CommentRow) (replies : List CommentTree)
deriving Repr

/-- The row at the root of a nested comment payload. -/
def CommentTree.comment : CommentTree → CommentRow
  | .mk c _ => c

/-- `buildCommentTree(comment)`: attach `repliesMap.get(comment.id) || []`
recursively.  The JavaScript recursion is unbounded and terminates
because every reply's parent row precedes it; the embedding bounds the
recursion by a fuel argument, instantiated with `rows.length`, which
dominates the depth of any forest over `rows`. -/
def buildCommentTree (rows : List CommentRow) : ℕ → CommentRow → CommentTree
  | 0, c => .mk c []
  | fuel + 1, c => .mk c ((repliesFor rows c.id).map (buildCommentTree rows fuel))

/-- `GET /api/comments`: the nested forest `topLevelComments.map(buildCommentTree)`. -/
def buildNestedComments (rows : List CommentRow) : List CommentTree :=
  (topLevelComments rows).map (buildCommentTree rows rows.length)

theorem CommentTree.comment_buildCommentTree (rows : List CommentRow) (n : ℕ)
    (c : CommentRow) : (buildCommentTree rows n c).comment = c := by
  cases n <;> rfl

/-- **C8** — `GET /api/comments` reconstructs the forest from flat rows by
partitioning into roots (falsy parent) and a parent-keyed multimap, roots
in creation (row) order, each node's replies in creation order: the flat
rows `[{id:1,parent:null},{id:2,parent:1},{id:3,parent:1},{id:4,parent:2}]`
yield one root `1` with children `2, 3` in that order, and node `2` has
the single child `4`; in general the forest's roots are exactly the
falsy-parent rows in row order, each carrying `repliesFor` its id. -/
theorem buildNestedComments_reconstruction :
    buildNestedComments
      [⟨1, 1, "T", "a", "A", none⟩, ⟨2, 1, "T", "b", "B", some 1⟩,
       ⟨3, 1, "T", "c", "C", some 1⟩, ⟨4, 1, "T", "d", "D", some 2⟩] =
      [.mk ⟨1, 1, "T", "a", "A", none⟩
        [.mk ⟨2, 1, "T", "b", "B", some 1⟩ [.mk ⟨4, 1, "T", "d", "D", some 2⟩ []],
         .mk ⟨3, 1, "T", "c", "C", some 1⟩ []]] ∧
    ∀ rows : List CommentRow,
      (buildNestedComments rows).map CommentTree.comment = topLevelComments rows := by
  refine ⟨rfl, fun rows => ?_⟩
  unfold buildNestedComments
  rw [List.map_map]
  calc (topLevelComments rows).map
        (CommentTree.comment ∘ buildCommentTree rows rows.length)
      = (topLevelComments rows).map id :=
        List.map_congr_left (fun c _ =>
          CommentTree.comment_buildCommentTree rows rows.length c)
    _ = topLevelComments rows := List.map_id _

/-- **C3 counterexample** — a body consisting only of whitespace is *not*
rejected by `POST /api/comments`: `" "` is truthy in JavaScript, so the
`!text` check passes and a row with empty trimmed text is persisted (201),
contradicting "for every body consisting only of whitespace, the call
fails and no comment row is created". -/
theorem addComment_accepts_whitespace_body :
    addComment ⟨[], 1⟩ 1 (some "T") " " none none =
      (⟨[⟨1, 1, "T", "", "Anonymous", none⟩], 2⟩,
        .created ⟨1, 1, "T", "", "Anonymous", none⟩) := by
  decide

/-- **C3 amended** — `addComment` rejects (400, nothing persisted) a body
that is the *empty string*; every persisted body is the trimmed input, so
a nonempty whitespace-only body passes validation and is stored with
empty text (see the counterexample). -/
theorem addComment_trims_and_rejects_empty (st : CommentStore) (pageId : ℕ)
    (title : Option String) (text : String) (author : Option String)
    (parentCommentId : Option ℕ) :
    (text = "" → addComment st pageId title text author parentCommentId = (st, .error 400)) ∧
    (∀ st' c, addComment st pageId title text author parentCommentId = (st', .created c) →
      c.text = jsTrim text) := by
  constructor
  · intro htext
    unfold addComment
    rw [if_pos (Or.inr htext)]
  · intro st' c h
    unfold addComment insertComment at h
    split at h
    · exact absurd (congrArg Prod.snd h) (by simp)
    · split at h
      · split at h
        · exact absurd (congrArg Prod.snd h) (by simp)
        · split at h
          · exact absurd (congrArg Prod.snd h) (by simp)
          · have := congrArg Prod.snd h
            simp only at this
            cases this
            rfl
      · have := congrArg Prod.snd h
        simp only at this
        cases this
        rfl

/-- Witness for `addComment_trims_and_rejects_empty`: the empty body is
rejected with 400; the accepted body `" hi "` is persisted as `"hi"`. -/
theorem addComment_trims_and_rejects_empty_witness :
    addComment ⟨[], 1⟩ 1 (some "T") "" none none = (⟨[], 1⟩, .error 400) ∧
    (CommentRow.mk 1 1 "T" "hi" "Anonymous" none).text = jsTrim " hi " :=
  ⟨(addComment_trims_and_rejects_empty ⟨[], 1⟩ 1 (some "T") "" none none).1 rfl,
    (addComment_trims_and_rejects_empty ⟨[], 1⟩ 1 (some "T") " hi " none none).2
      ⟨[CommentRow.mk 1 1 "T" "hi" "Anonymous" none], 2⟩
      (CommentRow.mk 1 1 "T" "hi" "Anonymous" none) (by decide)⟩

/-- Referential invariant of the `comments` table: every stored parent
reference resolves to an existing comment on the same page. -/
def ParentInv (st : CommentStore) : Prop :=
  ∀ c ∈ st.rows, ∀ q, c.parentCommentId = some q →
    ∃ par, par ∈ st.rows ∧ par.id = q ∧ par.pageId = c.pageId

/-- `insertComment` preserves the parent-reference invariant whenever the
stored parent reference (after `parentCommentId || null` normalisation)
resolves on the same page. -/
theorem insertComment_parentInv (st : CommentStore) (pageId : ℕ)
    (title : Option String) (text : String) (author : Option String) (pc : Option ℕ)
    (hparinv : ParentInv st)
    (hnew : ∀ q, (if truthyParent pc then pc else none) = some q →
      ∃ par, par ∈ st.rows ∧ par.id = q ∧ par.pageId = pageId) :
    ParentInv (insertComment st pageId title text author pc).1 := by
  intro c hc q hq
  have hc2 : c ∈ st.rows ++
      [CommentRow.mk st.nextId pageId (jsStrOr title ("Page " ++ toString pageId))
        (jsTrim text) (jsStrOr author "Anonymous")
        (if truthyParent pc then pc else none)] := hc
  simp only [List.mem_append, List.mem_singleton] at hc2
  rcases hc2 with hc2 | hc2
  · obtain ⟨par, hpar, hid, hpg⟩ := hparinv c hc2 q hq
    exact ⟨par, List.mem_append.mpr (Or.inl hpar), hid, hpg⟩
  · subst hc2
    obtain ⟨par, hpar, hid, hpg⟩ := hnew q hq
    exact ⟨par, List.mem_append.mpr (Or.inl hpar), hid, hpg⟩

/-- **C4 counterexample** — supplying `parentCommentId = 0` (which never
resolves to an existing comment) does *not* fail with 404: `0` is falsy
in JavaScript, so `if (parentCommentId)` skips the validation and
`parentCommentId || null` inserts a root comment (201), contradicting
"if no comment with that id exists, the call fails with NotFoundError". -/
theorem addComment_parent_zero_not_validated :
    addComment ⟨[], 1⟩ 1 (some "T") "hi" none (some 0) =
      (⟨[⟨1, 1, "T", "hi", "Anonymous", none⟩], 2⟩,
        .created ⟨1, 1, "T", "hi", "Anonymous", none⟩) := by
  decide

/-- **C4 amended** — for every `addComment` call that supplies a *nonzero*
`parentCommentId` (and passes the required-field check): an unresolved
parent fails with 404, a parent on a different page fails with 400, both
leaving the store unchanged; a supplied `parentCommentId` of `0` is
treated as absent and inserts a root comment (see the counterexample);
and `addComment` preserves the invariant that every persisted comment's
parent reference resolves to an existing comment on the same page. -/
theorem addComment_parent_validation (st : CommentStore) (pageId : ℕ)
    (title : Option String) (text : String) (author : Option String) (p : ℕ)
    (hp : p ≠ 0) (hpid : pageId ≠ 0) (htext : text ≠ "") :
    (st.rows.find? (fun c => c.id == p) = none →
      addComment st pageId title text author (some p) = (st, .error 404)) ∧
    (∀ parent, st.rows.find? (fun c => c.id == p) = some parent →
      parent.pageId ≠ pageId →
      addComment st pageId title text author (some p) = (st, .error 400)) ∧
    (∀ pc, ParentInv st → ParentInv (addComment st pageId title text author pc).1) := by
  have hval : ¬(pageId = 0 ∨ text = "") := by tauto
  have htruthy : truthyParent (some p) = true := by simp [truthyParent, hp]
  refine ⟨?_, ?_, ?_⟩
  · intro hfind
    unfold addComment
    rw [if_neg hval, if_pos htruthy]
    simp only [Option.getD_some]
    rw [hfind]
  · intro parent hfind hne
    unfold addComment
    rw [if_neg hval, if_pos htruthy]
    simp only [Option.getD_some]
    rw [hfind]
    simp only [if_pos hne]
  · intro pc hparinv
    by_cases hval2 : pageId = 0 ∨ text = ""
    · have heq : addComment st pageId title text author pc = (st, .error 400) := by
        unfold addComment
        rw [if_pos hval2]
      rw [heq]
      exact hparinv
    cases hpc : truthyParent pc with
    | false =>
      have heq : addComment st pageId title text author pc
          = insertComment st pageId title text author pc := by
        unfold addComment
        rw [if_neg hval2, if_neg (by simp [hpc])]
      rw [heq]
      refine insertComment_parentInv st pageId title text author pc hparinv ?_
      intro q hq
      rw [if_neg (by simp [hpc])] at hq
      cases hq
    | true =>
      obtain ⟨q0, rfl, hq0⟩ : ∃ q0, pc = some q0 ∧ q0 ≠ 0 := by
        cases pc with
        | none => simp [truthyParent] at hpc
        | some q0 => exact ⟨q0, rfl, by simpa [truthyParent] using hpc⟩
      cases hfind : st.rows.find? (fun c => c.id == q0) with
      | none =>
        have heq : addComment st pageId title text author (some q0) = (st, .error 404) := by
          unfold addComment
          rw [if_neg hval2, if_pos hpc]
          simp only [Option.getD_some]
          rw [hfind]
        rw [heq]
        exact hparinv
      | some parent =>
        by_cases hpg : parent.pageId ≠ pageId
        · have heq : addComment st pageId title text author (some q0) = (st, .error 400) := by
            unfold addComment
            rw [if_neg hval2, if_pos hpc]
            simp only [Option.getD_some]
            rw [hfind]
            simp only [if_pos hpg]
          rw [heq]
          exact hparinv
        · have heq : addComment st pageId title text author (some q0)
              = insertComment st pageId title text author (some q0) := by
            unfold addComment
            rw [if_neg hval2, if_pos hpc]
            simp only [Option.getD_some]
            rw [hfind]
            simp only [if_neg hpg]
          rw [heq]
          refine insertComment_parentInv st pageId title text author (some q0) hparinv ?_
          intro q hq
          rw [if_pos hpc] at hq
          obtain rfl : q0 = q := by simpa using hq
          have hparid : parent.id = q0 := by
            have := List.find?_some hfind
            simpa using this
          exact ⟨parent, List.mem_of_find?_eq_some hfind, hparid, not_not.mp hpg⟩

/-- Witness for `addComment_parent_validation`: a store holding one
comment on page 2; replying on page 1 to the missing comment `7` yields
404, replying on page 1 to comment `1` (which lives on page 2) yields
400, and the empty store's invariant is preserved by an insertion. -/
theorem addComment_parent_validation_witness :
    (7 : ℕ) ≠ 0 ∧ (1 : ℕ) ≠ 0 ∧ "hi" ≠ "" ∧
    ((CommentStore.mk [⟨1, 2, "T", "x", "A", none⟩] 2).rows.find?
        (fun c => c.id == 7) = none →
      addComment ⟨[⟨1, 2, "T", "x", "A", none⟩], 2⟩ 1 (some "T") "hi" none (some 7)
        = (⟨[⟨1, 2, "T", "x", "A", none⟩], 2⟩, .error 404)) :=
  ⟨by decide, by decide, by decide,
    (addComment_parent_validation ⟨[⟨1, 2, "T", "x", "A", none⟩], 2⟩ 1 (some "T")
      "hi" none 7 (by decide) (by decide) (by decide)).1⟩

/-! ## Session manager (`src/lib/auth.ts`)

A row of the `sessions` table: `sessionId TEXT PRIMARY KEY, userId,
expiresAt INTEGER` (a millisecond timestamp). -/
structure SessionRow where
  sessionId : String
  userId : ℕ
  expiresAt : ℤ
deriving Repr, DecidableEq

/-- `getSession(sessionId)`: `SELECT sessionId, userId, expiresAt FROM
sessions WHERE sessionId = ? AND expiresAt > ?` with `Date.now()` as the
second parameter, `.get` returning the first hit or `null`.  `now` is the
read-time clock value. -/
def getSession (rows : List SessionRow) (now : ℤ) (sessionId : String) :
    Option SessionRow :=
  rows.find? (fun s => s.sessionId == sessionId && now < s.expiresAt)

/-- **C9** — `getSession` returns `null` for an unknown token and for a
token whose stored `expiresAt` has passed (checked at read time); a store
whose rows for the token are all expired is observationally
indistinguishable, through `getSession`, from one in which those rows
never existed. -/
theorem getSession_expiry (rows : List SessionRow) (now : ℤ) (t : String) :
    ((∀ s ∈ rows, s.sessionId ≠ t) → getSession rows now t = none) ∧
    ((∀ s ∈ rows, s.sessionId = t → s.expiresAt < now) → getSession rows now t = none) ∧
    ((∀ s ∈ rows, s.sessionId = t → s.expiresAt < now) →
      getSession rows now t
        = getSession (rows.filter (fun s => !(s.sessionId == t))) now t) := by
  have hexp : (∀ s ∈ rows, s.sessionId = t → s.expiresAt < now) →
      getSession rows now t = none := by
    intro h
    refine List.find?_eq_none.mpr (fun s hs => ?_)
    by_cases hid : s.sessionId = t
    · have hlt := h s hs hid
      simp only [Bool.and_eq_true, beq_iff_eq, decide_eq_true_eq, not_and]
      intro _
      omega
    · simp [hid]
  refine ⟨?_, hexp, ?_⟩
  · intro h
    refine List.find?_eq_none.mpr (fun s hs => ?_)
    simp [h s hs]
  · intro h
    rw [hexp h]
    symm
    refine List.find?_eq_none.mpr (fun s hs => ?_)
    have hmem := List.mem_of_mem_filter hs
    have hid := List.of_mem_filter hs
    simp only [Bool.not_eq_true'] at hid
    intro hcon
    simp only [Bool.and_eq_true, beq_iff_eq] at hcon
    rw [hcon.1] at hid
    simp at hid

/-- Witness for `getSession_expiry`: a store holding one expired session
for `"tok"` read at time 10. -/
theorem getSession_expiry_witness :
    (∀ s ∈ [SessionRow.mk "tok" 1 5], s.sessionId = "tok" → s.expiresAt < 10) ∧
    getSession [SessionRow.mk "tok" 1 5] 10 "tok" = none ∧
    getSession [SessionRow.mk "tok" 1 5] 10 "tok"
      = getSession ([SessionRow.mk "tok" 1 5].filter
          (fun s => !(s.sessionId == "tok"))) 10 "tok" :=
  ⟨by decide,
    (getSession_expiry [SessionRow.mk "tok" 1 5] 10 "tok").2.1 (by decide),
    (getSession_expiry [SessionRow.mk "tok" 1 5] 10 "tok").2.2 (by decide)⟩

/-! ## Credential store (`src/lib/auth.ts`)

A row of the `users` table: `id INTEGER PRIMARY KEY AUTOINCREMENT,
username TEXT UNIQUE, email TEXT UNIQUE, password TEXT, realname TEXT`.
The stored password is `salt:hash` where `hash = pbkdf2(password, salt,
10000, 64, sha512)` in hex.  The PBKDF2 primitive and the random salt are
external to the repository (node `crypto`), so the embedding takes the
hash function and the drawn salt as parameters. -/
structure UserRow where
  id : ℕ
  username : String
  email : String
  password : String
  realname : Option String
deriving Repr, DecidableEq

/-- The `users` table plus the `AUTOINCREMENT` id supply. -/
structure UserStore where
  rows : List UserRow
  nextId : ℕ
deriving Repr, DecidableEq

/-- JavaScript `hashedPassword.split(':')`, specialised to the one
separator `auth.ts` uses, on the character list of the string. -/
def splitOnColon : List Char → List (List Char)
  | [] => [[]]
  | c :: rest =>
    if c = ':' then [] :: splitOnColon rest
    else
      match splitOnColon rest with
      | [] => [[c]]
      | part :: parts => (c :: part) :: parts

/-- `hashPassword`: `${salt}:${hash}` with `hash = pbkdf2(password, salt)`;
the 16 random salt bytes are drawn by the caller of the model. -/
def hashPassword (pbkdf2 : String → String → String) (salt password : String) : String :=
  salt ++ ":" ++ pbkdf2 password salt

/-- `verifyPassword`: destructure `const [salt, hash] =
hashedPassword.split(':')`, recompute the hash with the stored salt, and
compare. -/
def verifyPassword (pbkdf2 : String → String → String)
    (password hashed : String) : Bool :=
  let parts := splitOnColon hashed.data
  let salt : String := ⟨parts.getD 0 []⟩
  let hash : String := ⟨parts.getD 1 []⟩
  hash == pbkdf2 password salt

/-- `createUser`: `SELECT id FROM users WHERE username = ? OR email = ?`;
a hit throws (`ConflictError`, modelled as `none`), otherwise the row is
inserted with the salted hash and returned. -/
def createUser (pbkdf2 : String → String → String) (salt : String)
    (st : UserStore) (username email password : String) (realname : Option String) :
    Option (UserStore × UserRow) :=
  if st.rows.any (fun u => u.username == username || u.email == email) then none
  else
    let row : UserRow :=
      { id := st.nextId, username := username, email := email,
        password := hashPassword pbkdf2 salt password, realname := realname }
    some ({ rows := st.rows ++ [row], nextId := st.nextId + 1 }, row)

/-- `getUserByUsername`: `SELECT * FROM users WHERE username = ?`. -/
def getUserByUsername (st : UserStore) (username : String) : Option UserRow :=
  st.rows.find? (fun u => u.username == username)

/-- `verifyCredentials`: look the user up by username, recompute and
compare the hash; `null` (never an exception) on either failure. -/
def verifyCredentials (pbkdf2 : String → String → String) (st : UserStore)
    (username password : String) : Option UserRow :=
  match getUserByUsername st username with
  | none => none
  | some u => if verifyPassword pbkdf2 password u.password then some u else none

theorem splitOnColon_append (a b : List Char) (ha : ':' ∉ a) :
    splitOnColon (a ++ ':' :: b) = a :: splitOnColon b := by
  induction a with
  | nil => simp [splitOnColon]
  | cons x a ih =>
    have hx : x ≠ ':' := fun h => ha (h ▸ List.mem_cons_self x a)
    have ha' : ':' ∉ a := fun h => ha (List.mem_cons_of_mem x h)
    simp only [List.cons_append, splitOnColon, if_neg hx, List.append_eq]
    rw [ih ha']

theorem splitOnColon_of_no_colon (b : List Char) (hb : ':' ∉ b) :
    splitOnColon b = [b] := by
  induction b with
  | nil => rfl
  | cons x b ih =>
    have hx : x ≠ ':' := fun h => hb (h ▸ List.mem_cons_self x b)
    have hb' : ':' ∉ b := fun h => hb (List.mem_cons_of_mem x h)
    simp only [splitOnColon, if_neg hx, ih hb']

/-- Verifying against a freshly hashed password compares the two PBKDF2
outputs under the stored salt. -/
theorem verifyPassword_hashPassword (pbkdf2 : String → String → String)
    (salt password candidate : String)
    (hs : ':' ∉ salt.data) (hh : ':' ∉ (pbkdf2 password salt).data) :
    verifyPassword pbkdf2 candidate (hashPassword pbkdf2 salt password)
      = (pbkdf2 password salt == pbkdf2 candidate salt) := by
  unfold verifyPassword hashPassword
  have hdata : (salt ++ ":" ++ pbkdf2 password salt).data
      = salt.data ++ ':' :: (pbkdf2 password salt).data := by
    rw [String.data_append, String.data_append, List.append_assoc]
    rfl
  rw [hdata, splitOnColon_append _ _ hs, splitOnColon_of_no_colon _ hh]
  rfl

/-- **C5 counterexample** — a `(username, email)` *pair* never seen before
does not guarantee success: with `("alice", "a@x")` present, creating
`("bob", "a@x")` — a fresh pair reusing only the email — throws
`ConflictError` (the route checks `username = ? OR email = ?`), so
`createUser` does not succeed and no `verifyCredentials` round-trip
exists. -/
theorem createUser_rejects_fresh_pair_with_reused_email :
    createUser (fun p _ => p) "s" ⟨[⟨1, "alice", "a@x", "s:pw", none⟩], 2⟩
      "bob" "a@x" "pw2" none = none := by
  decide

/-- **C5 amended** — for every username and email such that *neither* is
already present, `createUser` succeeds, and afterwards
`verifyCredentials` with the same password returns the created user;
with any other password, or for a username no stored row carries, it
returns `null` (an `Option`, never an exception).  The PBKDF2 primitive
is a parameter; the hypotheses ask that the drawn salt and the produced
hash are colon-free hex-like strings (as `crypto` guarantees) and that
the hash is injective in the password at the drawn salt (collisions in
the 512-bit digest are assumed absent). -/
theorem createUser_then_verifyCredentials (pbkdf2 : String → String → String)
    (salt : String) (st : UserStore) (username email password : String)
    (realname : Option String)
    (hfresh : ∀ u ∈ st.rows, u.username ≠ username ∧ u.email ≠ email)
    (hs : ':' ∉ salt.data) (hh : ':' ∉ (pbkdf2 password salt).data)
    (hinj : ∀ candidate, pbkdf2 candidate salt = pbkdf2 password salt →
      candidate = password) :
    ∃ st' row,
      createUser pbkdf2 salt st username email password realname = some (st', row) ∧
      verifyCredentials pbkdf2 st' username password = some row ∧
      (∀ candidate, candidate ≠ password →
        verifyCredentials pbkdf2 st' username candidate = none) ∧
      (∀ u', (∀ r ∈ st'.rows, r.username ≠ u') →
        verifyCredentials pbkdf2 st' u' password = none) := by
  have hany : ¬(st.rows.any (fun u => u.username == username || u.email == email) = true) := by
    rw [List.any_eq_true]
    rintro ⟨u, hu, hmatch⟩
    obtain ⟨h1, h2⟩ := hfresh u hu
    simp only [Bool.or_eq_true, beq_iff_eq] at hmatch
    tauto
  set row : UserRow :=
    { id := st.nextId, username := username, email := email,
      password := hashPassword pbkdf2 salt password, realname := realname } with hrow
  set st' : UserStore := { rows := st.rows ++ [row], nextId := st.nextId + 1 } with hst'
  have hcreate : createUser pbkdf2 salt st username email password realname
      = some (st', row) := by
    unfold createUser
    rw [if_neg hany]
  have hfind : getUserByUsername st' username = some row := by
    unfold getUserByUsername
    rw [hst']
    simp only [List.find?_append]
    have hnone : st.rows.find? (fun u => u.username == username) = none :=
      List.find?_eq_none.mpr (fun u hu => by simp [(hfresh u hu).1])
    rw [hnone]
    simp [hrow]
  refine ⟨st', row, hcreate, ?_, ?_, ?_⟩
  · unfold verifyCredentials
    rw [hfind]
    have hok : verifyPassword pbkdf2 password row.password = true := by
      rw [hrow]
      rw [verifyPassword_hashPassword pbkdf2 salt password password hs hh]
      simp
    show (if verifyPassword pbkdf2 password row.password = true
        then some row else none) = some row
    rw [if_pos hok]
  · intro candidate hne
    unfold verifyCredentials
    rw [hfind]
    have hbad : ¬(verifyPassword pbkdf2 candidate row.password = true) := by
      rw [hrow]
      rw [verifyPassword_hashPassword pbkdf2 salt password candidate hs hh]
      simp only [beq_iff_eq]
      intro hhash
      exact hne (hinj candidate hhash.symm)
    show (if verifyPassword pbkdf2 candidate row.password = true
        then some row else none) = none
    rw [if_neg hbad]
  · intro u' hu'
    unfold verifyCredentials getUserByUsername
    have hnone : st'.rows.find? (fun u => u.username == u') = none :=
      List.find?_eq_none.mpr (fun u hu => by simp [hu' u hu])
    rw [hnone]

/-- Witness for `createUser_then_verifyCredentials`: empty store, the
password-identity hash, salt `"s"`, user `("alice", "a@x", "pw")`. -/
theorem createUser_then_verifyCredentials_witness :
    (∀ u ∈ ([] : List UserRow), u.username ≠ "alice" ∧ u.email ≠ "a@x") ∧
    (':' ∉ "s".data) ∧ (':' ∉ ((fun (p : String) (_ : String) => p) "pw" "s").data) ∧
    (∃ st' row,
      createUser (fun p _ => p) "s" ⟨[], 1⟩ "alice" "a@x" "pw" none = some (st', row) ∧
      verifyCredentials (fun p _ => p) st' "alice" "pw" = some row ∧
      (∀ candidate, candidate ≠ "pw" →
        verifyCredentials (fun p _ => p) st' "alice" candidate = none) ∧
      (∀ u', (∀ r ∈ st'.rows, r.username ≠ u') →
        verifyCredentials (fun p _ => p) st' u' "pw" = none)) :=
  ⟨by simp, by decide, by decide,
    createUser_then_verifyCredentials (fun p _ => p) "s" ⟨[], 1⟩ "alice" "a@x" "pw"
      none (by simp) (by decide) (by decide) (fun _ h => h)⟩
